import Mathlib

set_option maxHeartbeats 1000000

/-
Shallow embedding of the mcp-client session server (src/unnamed/part_000).
The MCPClient class keeps an untyped conversationHistory array; every entry
shape the source pushes is one constructor of `Msg`.  The remote model
providers and the MCP tool server are modelled as oracle functions supplied
as parameters; every outbound call is recorded as an `Event`.
-/

namespace MCP

inductive ModelProvider
  | anthropic
  | openai
  | ollama
deriving DecidableEq

/-- A thrown JS error value, as far as the chat handler inspects it:
`(error as any)?.status === 404 || (error as any)?.code === 404`. -/
structure Err where
  status : Option Nat
  code : Option Nat
deriving DecidableEq

/-- The 404 test performed by chatHandler. -/
def is404 (e : Err) : Bool :=
  e.status == some 404 || e.code == some 404

/-- Anthropic response content block (`type:"text"` or `type:"tool_use"`). -/
inductive ContentBlock
  | text (s : String)
  | toolUse (id : String) (name : String) (input : String)
deriving DecidableEq

/-- OpenAI tool call: `{id, function:{name, arguments}}` with `id` a string. -/
structure OpenAIToolCall where
  id : String
  name : String
  arguments : String
deriving DecidableEq

/-- Ollama tool call: `(toolCall as any).id` may be absent. -/
structure OllamaToolCall where
  id : Option String
  name : String
  arguments : String
deriving DecidableEq

/-- `(toolCall as any).id || toolCall.function.name` with JS falsiness of "". -/
def ollamaCorrId (tc : OllamaToolCall) : String :=
  match tc.id with
  | some s => if s = "" then tc.name else s
  | none => tc.name

/-- One entry of `MCPClient.conversationHistory` (an `any[]` in the source):
user text, Anthropic assistant content blocks, Anthropic tool_result entry
(pushed with role "user"), OpenAI/Ollama assistant message with tool_calls,
and OpenAI/Ollama role:"tool" result entries. -/
inductive Msg
  | user (content : String)
  | assistantBlocks (content : List ContentBlock)
  | toolResultBlock (toolUseId : String) (content : String)
  | assistantOpenAI (content : Option String) (toolCalls : Option (List OpenAIToolCall))
  | toolMsgOpenAI (content : String) (toolCallId : String)
  | assistantOllama (content : Option String) (toolCalls : Option (List OllamaToolCall))
  | toolMsgOllama (content : String) (toolCallId : String)
deriving DecidableEq

/-- Outbound remote calls made while processing one query. -/
inductive Event
  | modelCall
  | toolInvoke (name : String) (arguments : String)
deriving DecidableEq

def isModelCall : Event → Bool
  | Event.modelCall => true
  | Event.toolInvoke _ _ => false

def countModelCalls (evs : List Event) : Nat :=
  (evs.filter isModelCall).length

/-- OpenAI `choices[0].message`. -/
structure OpenAIMessage where
  content : Option String
  toolCalls : Option (List OpenAIToolCall)
deriving DecidableEq

/-- Ollama `response.message`. -/
structure OllamaMessage where
  content : Option String
  toolCalls : Option (List OllamaToolCall)
deriving DecidableEq

/-- The two remote parties: the model providers and the MCP tool server.
A call either returns a value or throws an `Err`. -/
structure Oracles where
  anthropicCall : List Msg → Except Err (List ContentBlock)
  openaiCall : List Msg → Except Err OpenAIMessage
  ollamaCall : List Msg → Except Err OllamaMessage
  mcpCallTool : String → String → Except Err String

/-- Result of `processQuery`: the returned text or the thrown error, the
conversation history after the call (pushes survive a throw since the array
is mutated in place), and the outbound calls made. -/
structure QueryResult where
  result : Except Err String
  history : List Msg
  events : List Event

/-- Concatenation of the `text` blocks of an Anthropic response, in order. -/
def textOfBlocks : List ContentBlock → String
  | [] => ""
  | ContentBlock.text s :: rest => s ++ textOfBlocks rest
  | ContentBlock.toolUse _ _ _ :: rest => textOfBlocks rest

def countToolUses : List ContentBlock → Nat
  | [] => 0
  | ContentBlock.text _ :: rest => countToolUses rest
  | ContentBlock.toolUse _ _ _ :: rest => countToolUses rest + 1

/-- The `for (const content of response.content)` loop of
processQueryWithAnthropic: text blocks accumulate into assistantResponse;
each tool_use block invokes the MCP tool, pushes a tool_result entry, then
immediately issues a follow-up model call and pushes its content blocks. -/
def anthropicLoop (orc : Oracles) : List ContentBlock → List Msg → String → List Event → QueryResult
  | [], hist, acc, evs => ⟨Except.ok acc, hist, evs⟩
  | ContentBlock.text s :: rest, hist, acc, evs =>
      anthropicLoop orc rest hist (acc ++ s) evs
  | ContentBlock.toolUse tid tname targ :: rest, hist, acc, evs =>
      match orc.mcpCallTool tname targ with
      | Except.error e => ⟨Except.error e, hist, evs ++ [Event.toolInvoke tname targ]⟩
      | Except.ok tres =>
          match orc.anthropicCall (hist ++ [Msg.toolResultBlock tid tres]) with
          | Except.error e =>
              ⟨Except.error e, hist ++ [Msg.toolResultBlock tid tres],
                evs ++ [Event.toolInvoke tname targ, Event.modelCall]⟩
          | Except.ok fblocks =>
              anthropicLoop orc rest
                ((hist ++ [Msg.toolResultBlock tid tres]) ++ [Msg.assistantBlocks fblocks])
                (acc ++ textOfBlocks fblocks)
                (evs ++ [Event.toolInvoke tname targ, Event.modelCall])

def processQueryWithAnthropic (orc : Oracles) (hist : List Msg) (query : String) : QueryResult :=
  match orc.anthropicCall (hist ++ [Msg.user query]) with
  | Except.error e => ⟨Except.error e, hist ++ [Msg.user query], [Event.modelCall]⟩
  | Except.ok blocks =>
      anthropicLoop orc blocks ((hist ++ [Msg.user query]) ++ [Msg.assistantBlocks blocks])
        "" [Event.modelCall]

/-- The `for (const toolCall of message.tool_calls)` loop of
processQueryWithOpenAI: invokes each tool and pushes a role:"tool" entry. -/
def openaiToolLoop (orc : Oracles) : List OpenAIToolCall → List Msg → List Event →
    Option Err × List Msg × List Event
  | [], hist, evs => (none, hist, evs)
  | tc :: rest, hist, evs =>
      match orc.mcpCallTool tc.name tc.arguments with
      | Except.error e => (some e, hist, evs ++ [Event.toolInvoke tc.name tc.arguments])
      | Except.ok tres =>
          openaiToolLoop orc rest (hist ++ [Msg.toolMsgOpenAI tres tc.id])
            (evs ++ [Event.toolInvoke tc.name tc.arguments])

def processQueryWithOpenAI (orc : Oracles) (hist : List Msg) (query : String) : QueryResult :=
  match orc.openaiCall (hist ++ [Msg.user query]) with
  | Except.error e => ⟨Except.error e, hist ++ [Msg.user query], [Event.modelCall]⟩
  | Except.ok msg =>
      let hist1 := (hist ++ [Msg.user query]) ++ [Msg.assistantOpenAI msg.content msg.toolCalls]
      match msg.toolCalls with
      | none => ⟨Except.ok (msg.content.getD ""), hist1, [Event.modelCall]⟩
      | some [] => ⟨Except.ok (msg.content.getD ""), hist1, [Event.modelCall]⟩
      | some (tc :: rest) =>
          match openaiToolLoop orc (tc :: rest) hist1 [Event.modelCall] with
          | (some e, hist2, evs2) => ⟨Except.error e, hist2, evs2⟩
          | (none, hist2, evs2) =>
              match orc.openaiCall hist2 with
              | Except.error e => ⟨Except.error e, hist2, evs2 ++ [Event.modelCall]⟩
              | Except.ok fmsg =>
                  ⟨Except.ok (fmsg.content.getD ""),
                    hist2 ++ [Msg.assistantOpenAI fmsg.content fmsg.toolCalls],
                    evs2 ++ [Event.modelCall]⟩

def ollamaToolLoop (orc : Oracles) : List OllamaToolCall → List Msg → List Event →
    Option Err × List Msg × List Event
  | [], hist, evs => (none, hist, evs)
  | tc :: rest, hist, evs =>
      match orc.mcpCallTool tc.name tc.arguments with
      | Except.error e => (some e, hist, evs ++ [Event.toolInvoke tc.name tc.arguments])
      | Except.ok tres =>
          ollamaToolLoop orc rest (hist ++ [Msg.toolMsgOllama tres (ollamaCorrId tc)])
            (evs ++ [Event.toolInvoke tc.name tc.arguments])

def processQueryWithOllama (orc : Oracles) (hist : List Msg) (query : String) : QueryResult :=
  match orc.ollamaCall (hist ++ [Msg.user query]) with
  | Except.error e => ⟨Except.error e, hist ++ [Msg.user query], [Event.modelCall]⟩
  | Except.ok msg =>
      let hist1 := (hist ++ [Msg.user query]) ++ [Msg.assistantOllama msg.content msg.toolCalls]
      match msg.toolCalls with
      | none => ⟨Except.ok (msg.content.getD ""), hist1, [Event.modelCall]⟩
      | some [] => ⟨Except.ok (msg.content.getD ""), hist1, [Event.modelCall]⟩
      | some (tc :: rest) =>
          match ollamaToolLoop orc (tc :: rest) hist1 [Event.modelCall] with
          | (some e, hist2, evs2) => ⟨Except.error e, hist2, evs2⟩
          | (none, hist2, evs2) =>
              match orc.ollamaCall hist2 with
              | Except.error e => ⟨Except.error e, hist2, evs2 ++ [Event.modelCall]⟩
              | Except.ok fmsg =>
                  ⟨Except.ok (fmsg.content.getD ""),
                    hist2 ++ [Msg.assistantOllama fmsg.content fmsg.toolCalls],
                    evs2 ++ [Event.modelCall]⟩

/-- MCPClient.processQuery: dispatch on the provider tag chosen at creation. -/
def processQuery (orc : Oracles) (p : ModelProvider) (hist : List Msg) (query : String) :
    QueryResult :=
  match p with
  | ModelProvider.anthropic => processQueryWithAnthropic orc hist query
  | ModelProvider.openai => processQueryWithOpenAI orc hist query
  | ModelProvider.ollama => processQueryWithOllama orc hist query

/-- Provider-neutral tool as listed by the MCP server. -/
structure McpTool where
  name : String
  description : String
  inputSchema : String
deriving DecidableEq

/-- Provider wire shape of a tool after connectToServer's mapping. -/
inductive PTool
  | anthropicShape (name : String) (description : String) (inputSchemaField : String)
  | functionShape (name : String) (description : String) (parameters : String)
deriving DecidableEq

def normalizeTools (p : ModelProvider) (ts : List McpTool) : List PTool :=
  match p with
  | ModelProvider.anthropic =>
      ts.map (fun t => PTool.anthropicShape t.name t.description t.inputSchema)
  | ModelProvider.openai =>
      ts.map (fun t => PTool.functionShape t.name t.description t.inputSchema)
  | ModelProvider.ollama =>
      ts.map (fun t => PTool.functionShape t.name t.description t.inputSchema)

/-- `(this.transport as any)?.sessionId || null`: a JS falsy value (absent
header or empty string) collapses to null. -/
def truthyOr (s : Option String) : Option String :=
  match s with
  | some v => if v = "" then none else some v
  | none => none

/-- connectToServer: transport connect, read the Mcp-Session-Id header, list
tools, normalize them; returns `this.sessionId || "no-session"` together with
the stored nullable sessionId and the normalized tools.  Any failure of the
handshake or of tool discovery is rethrown. -/
def connectToServer (connectRes : Except Err Unit) (headerSessionId : Option String)
    (listToolsRes : Except Err (List McpTool)) (p : ModelProvider) :
    Except Err (String × Option String × List PTool) :=
  match connectRes with
  | Except.error e => Except.error e
  | Except.ok _ =>
      match listToolsRes with
      | Except.error e => Except.error e
      | Except.ok ts =>
          Except.ok ((truthyOr headerSessionId).getD "no-session",
            truthyOr headerSessionId, normalizeTools p ts)

/-- The state held by one MCPClient instance after connectToServer;
`clientId` stands for the identity of the instance and of the transport
connection it owns. -/
structure ClientState where
  clientId : Nat
  mcpSessionId : Option String
  provider : ModelProvider
  history : List Msg
deriving DecidableEq

structure SessionData where
  sessionId : String
  client : ClientState
  createdAt : Nat
  lastActivity : Nat
  provider : ModelProvider
deriving DecidableEq

/-- The global `sessions` JS Map. -/
abbrev Registry := List (String × SessionData)

def mapGet (reg : Registry) (k : String) : Option SessionData :=
  match reg with
  | [] => none
  | (k1, v) :: rest => if k1 = k then some v else mapGet rest k

def mapSet (reg : Registry) (k : String) (v : SessionData) : Registry :=
  match reg with
  | [] => [(k, v)]
  | (k1, v1) :: rest => if k1 = k then (k, v) :: rest else (k1, v1) :: mapSet rest k v

def mapDelete (reg : Registry) (k : String) : Registry :=
  match reg with
  | [] => []
  | (k1, v1) :: rest => if k1 = k then mapDelete rest k else (k1, v1) :: mapDelete rest k

/-- createSession: construct an MCPClient, connect, and register the session
under the id returned by connectToServer.  A throw from connectToServer
propagates before `sessions.set` runs. -/
def createSession (reg : Registry) (clientId : Nat) (connectRes : Except Err Unit)
    (headerSessionId : Option String) (listToolsRes : Except Err (List McpTool))
    (p : ModelProvider) (now : Nat) : Except Err String × Registry :=
  match connectToServer connectRes headerSessionId listToolsRes p with
  | Except.error e => (Except.error e, reg)
  | Except.ok (sid, mcpSid, _tools) =>
      (Except.ok sid, mapSet reg sid ⟨sid, ⟨clientId, mcpSid, p, []⟩, now, now, p⟩)

/-- getSession: touch lastActivity on a hit, no effect on a miss. -/
def getSession (reg : Registry) (sid : String) (now : Nat) : Option SessionData × Registry :=
  match mapGet reg sid with
  | none => (none, reg)
  | some sd => (some { sd with lastActivity := now }, mapSet reg sid { sd with lastActivity := now })

/-- Outcome of the `fetch(MCP_SERVER_URL, {method: DELETE, ...})` request. -/
inductive FetchOutcome
  | status (n : Nat)
  | threw (e : Err)
deriving DecidableEq

inductive TermLog
  | skipped
  | methodNotAllowed405
  | success
  | softFailure (st : Nat)
  | caughtError
deriving DecidableEq

/-- How terminateSession classifies the DELETE response: 405 is logged and
tolerated, 2xx is success (`response.ok`), any other status is a warned soft
failure, and a thrown fetch error is caught and logged. -/
def terminationLog (f : FetchOutcome) : TermLog :=
  match f with
  | FetchOutcome.threw _ => TermLog.caughtError
  | FetchOutcome.status n =>
      if n = 405 then TermLog.methodNotAllowed405
      else if 200 ≤ n ∧ n ≤ 299 then TermLog.success
      else TermLog.softFailure n

structure TermOutcome where
  log : TermLog
  closeCalls : Nat
deriving DecidableEq

/-- terminateSession: the DELETE request runs only `if (this.sessionId &&
this.transport)`; every path then awaits `this.cleanup()` (`mcp.close()`),
releasing the transport connection, exactly once.  No path rethrows. -/
def terminateSession (mcpSessionId : Option String) (hasTransport : Bool)
    (f : FetchOutcome) : TermOutcome :=
  if (truthyOr mcpSessionId).isSome && hasTransport then
    { log := terminationLog f, closeCalls := 1 }
  else
    { log := TermLog.skipped, closeCalls := 1 }

/-- removeSession: on a hit, terminate the session (errors swallowed by
`.catch`) and delete the entry; returns the new registry and the list of
client (connection) identities released, with multiplicity. -/
def removeSession (reg : Registry) (sid : String) (f : FetchOutcome) :
    Registry × List Nat :=
  match mapGet reg sid with
  | none => (reg, [])
  | some sd =>
      (mapDelete reg sid,
        List.replicate (terminateSession sd.client.mcpSessionId true f).closeCalls
          sd.client.clientId)

/-- JSON body produced by a handler: status code and the fields the source
actually sets (`requiresReconnect` appears only where the source writes it). -/
structure HttpResp where
  statusCode : Nat
  errorMsg : Option String
  requiresReconnect : Option Bool
  responseText : Option String
  conversationLength : Option Nat
deriving DecidableEq

/-- JS truthiness of a request-body string field (`if (!query)`). -/
def strTruthy (s : Option String) : Bool :=
  match s with
  | some v => if v = "" then false else true
  | none => false

/-- The POST /chat handler.  On success return the response text and the
conversation length; on a thrown error whose status or code is 404, remove
the session and answer 404 with `requiresReconnect: true`; otherwise answer
500.  The third component lists released connections. -/
def chatHandler (reg : Registry) (orc : Oracles) (termFetch : FetchOutcome)
    (query : Option String) (sessionId : Option String) (now : Nat) :
    HttpResp × Registry × List Nat :=
  if strTruthy query = false then
    (⟨400, some "Query is required", none, none, none⟩, reg, [])
  else if strTruthy sessionId = false then
    (⟨400, some "SessionId is required. Please connect first using /connect endpoint",
      none, none, none⟩, reg, [])
  else
    match getSession reg (sessionId.getD "") now with
    | (none, reg1) =>
        (⟨404, some "Session not found or expired. Please connect again using /connect endpoint",
          none, none, none⟩, reg1, [])
    | (some sd, reg1) =>
        let qr := processQuery orc sd.client.provider sd.client.history (query.getD "")
        let reg2 := mapSet reg1 (sessionId.getD "")
          { sd with client := { sd.client with history := qr.history } }
        match qr.result with
        | Except.ok txt => (⟨200, none, none, some txt, some qr.history.length⟩, reg2, [])
        | Except.error e =>
            if is404 e then
              ((⟨404, some "Session terminated by server. Please connect again.",
                some true, none, none⟩),
                (removeSession reg2 (sessionId.getD "") termFetch).1,
                (removeSession reg2 (sessionId.getD "") termFetch).2)
            else
              (⟨500, some "Failed to process query", none, none, none⟩, reg2, [])

/-- The POST /disconnect handler. -/
def disconnectHandler (reg : Registry) (termFetch : FetchOutcome)
    (sessionId : Option String) (now : Nat) : HttpResp × Registry × List Nat :=
  if strTruthy sessionId = false then
    (⟨400, some "SessionId is required", none, none, none⟩, reg, [])
  else
    match getSession reg (sessionId.getD "") now with
    | (none, reg1) => (⟨404, some "Session not found", none, none, none⟩, reg1, [])
    | (some _, reg1) =>
        ((⟨200, none, none, some "Session disconnected successfully", none⟩),
          (removeSession reg1 (sessionId.getD "") termFetch).1,
          (removeSession reg1 (sessionId.getD "") termFetch).2)

/-- The correlation id carried by a tool-result history entry, if any. -/
def toolResultId : Msg → Option String
  | Msg.toolResultBlock tid _ => some tid
  | Msg.toolMsgOpenAI _ cid => some cid
  | Msg.toolMsgOllama _ cid => some cid
  | _ => none

/-- Whether a history entry is an assistant message carrying a tool request
with correlation id `cid`. -/
def hasRequestId (cid : String) : Msg → Bool
  | Msg.assistantBlocks bs =>
      bs.any (fun b => match b with
        | ContentBlock.toolUse tid _ _ => tid == cid
        | ContentBlock.text _ => false)
  | Msg.assistantOpenAI _ (some tcs) => tcs.any (fun tc => tc.id == cid)
  | Msg.assistantOllama _ (some tcs) => tcs.any (fun tc => ollamaCorrId tc == cid)
  | _ => false

/-- A message is admissible over an already-committed prefix `seen`: a
tool-result entry must be correlated to an earlier tool request. -/
def resultOkFrom (seen : List Msg) (m : Msg) : Prop :=
  ∀ cid, toolResultId m = some cid → ∃ m2, m2 ∈ seen ∧ hasRequestId cid m2 = true

/-- Every tool result in the second list is preceded (in `seen` or earlier in
the list itself) by a matching tool request. -/
def WFFrom : List Msg → List Msg → Prop
  | _, [] => True
  | seen, m :: rest => resultOkFrom seen m ∧ WFFrom (seen ++ [m]) rest

def WFHistory (hist : List Msg) : Prop := WFFrom [] hist

/-- A sequence of chat rounds against one session. -/
def runQueries (orc : Oracles) : List (ModelProvider × String) → List Msg → List Msg
  | [], hist => hist
  | (p, q) :: rest, hist => runQueries orc rest (processQuery orc p hist q).history

/-- The id a successful connect returns for a given server header value. -/
def returnedId (hdr : Option String) : String := (truthyOr hdr).getD "no-session"

/-- A sequence of createSession calls whose transport connects and tool
listing succeed, each with its own client identity and server header. -/
def runCreates (p : ModelProvider) (now : Nat) :
    List (Nat × Option String) → Registry → List String × Registry
  | [], reg => ([], reg)
  | (cid, hdr) :: rest, reg =>
      match createSession reg cid (Except.ok ()) hdr (Except.ok []) p now with
      | (Except.ok sid, reg1) =>
          (sid :: (runCreates p now rest reg1).1, (runCreates p now rest reg1).2)
      | (Except.error _, reg1) => runCreates p now rest reg1

/-- The initial model-provider call of a chat round throws `e`. -/
def initialCallThrows (orc : Oracles) (p : ModelProvider) (h0 : List Msg) (e : Err) : Prop :=
  match p with
  | ModelProvider.anthropic => orc.anthropicCall h0 = Except.error e
  | ModelProvider.openai => orc.openaiCall h0 = Except.error e
  | ModelProvider.ollama => orc.ollamaCall h0 = Except.error e

/-- Remote calls the Anthropic block loop makes per block: each tool_use
triggers one tool invocation followed immediately by one follow-up call. -/
def followupEvents : List ContentBlock → List Event
  | [] => []
  | ContentBlock.text _ :: rest => followupEvents rest
  | ContentBlock.toolUse _ n a :: rest =>
      Event.toolInvoke n a :: Event.modelCall :: followupEvents rest

/-- A chat round whose initial model response carries exactly one tool
request, with the tool call and the follow-up model call succeeding. -/
def OneToolRound (orc : Oracles) (p : ModelProvider) (hist : List Msg) (q : String) : Prop :=
  match p with
  | ModelProvider.anthropic => ∃ pre tid tname targ post tres fblocks,
      orc.anthropicCall (hist ++ [Msg.user q]) =
        Except.ok (pre ++ ContentBlock.toolUse tid tname targ :: post) ∧
      countToolUses pre = 0 ∧ countToolUses post = 0 ∧
      orc.mcpCallTool tname targ = Except.ok tres ∧
      orc.anthropicCall
        (((hist ++ [Msg.user q]) ++
          [Msg.assistantBlocks (pre ++ ContentBlock.toolUse tid tname targ :: post)]) ++
          [Msg.toolResultBlock tid tres]) = Except.ok fblocks
  | ModelProvider.openai => ∃ c tc tres fmsg,
      orc.openaiCall (hist ++ [Msg.user q]) = Except.ok ⟨c, some [tc]⟩ ∧
      orc.mcpCallTool tc.name tc.arguments = Except.ok tres ∧
      orc.openaiCall
        (((hist ++ [Msg.user q]) ++ [Msg.assistantOpenAI c (some [tc])]) ++
          [Msg.toolMsgOpenAI tres tc.id]) = Except.ok fmsg
  | ModelProvider.ollama => ∃ c tc tres fmsg,
      orc.ollamaCall (hist ++ [Msg.user q]) = Except.ok ⟨c, some [tc]⟩ ∧
      orc.mcpCallTool tc.name tc.arguments = Except.ok tres ∧
      orc.ollamaCall
        (((hist ++ [Msg.user q]) ++ [Msg.assistantOllama c (some [tc])]) ++
          [Msg.toolMsgOllama tres (ollamaCorrId tc)]) = Except.ok fmsg

/-- Oracles whose every model call throws the fixed error `e`. -/
def errOrc (e : Err) : Oracles :=
  ⟨fun _ => Except.error e, fun _ => Except.error e, fun _ => Except.error e,
    fun _ _ => Except.ok "r"⟩

/-- Oracles whose first model call requests one `search` tool and whose later
calls return plain text. -/
def oneToolOrc : Oracles :=
  ⟨fun h => if h.length ≤ 1 then Except.ok [ContentBlock.toolUse "t1" "search" "cats"]
      else Except.ok [ContentBlock.text "done"],
    fun h => if h.length ≤ 1 then Except.ok ⟨some "", some [⟨"c1", "search", "cats"⟩]⟩
      else Except.ok ⟨some "Found 3 results.", none⟩,
    fun h => if h.length ≤ 1 then Except.ok ⟨some "", some [⟨some "c1", "search", "cats"⟩]⟩
      else Except.ok ⟨some "done", none⟩,
    fun _ _ => Except.ok "3 results"⟩

/-- Oracles whose first Anthropic response carries two tool_use blocks. -/
def c1orc : Oracles :=
  ⟨fun h => if h.length ≤ 1 then
        Except.ok [ContentBlock.toolUse "t1" "n1" "a1", ContentBlock.toolUse "t2" "n2" "a2"]
      else Except.ok [ContentBlock.text "x"],
    fun _ => Except.error ⟨none, none⟩,
    fun _ => Except.error ⟨none, none⟩,
    fun _ _ => Except.ok "r"⟩

def c3sd : SessionData :=
  ⟨"s1", ⟨0, some "s1", ModelProvider.anthropic, []⟩, 1, 1, ModelProvider.anthropic⟩

def c3reg : Registry :=
  (createSession [] 0 (Except.ok ()) (some "s1") (Except.ok [])
    ModelProvider.anthropic 1).2

/-- Oracles whose model call requests one tool and whose tool invocation then
reports HTTP 404 (the tool server has terminated the session). -/
def c3orc : Oracles :=
  ⟨fun h => if h.length ≤ 1 then Except.ok [ContentBlock.toolUse "t1" "search" "cats"]
      else Except.ok [ContentBlock.text "done"],
    fun _ => Except.error ⟨none, none⟩,
    fun _ => Except.error ⟨none, none⟩,
    fun _ _ => Except.error ⟨some 404, none⟩⟩

def c3chat1 : HttpResp × Registry × List Nat :=
  chatHandler c3reg c3orc (FetchOutcome.status 200) (some "hello") (some "s1") 2

def c3chat2 : HttpResp × Registry × List Nat :=
  chatHandler c3chat1.2.1 c3orc (FetchOutcome.status 200) (some "hello") (some "s1") 3

def c7sd : SessionData :=
  ⟨"s7", ⟨3, some "s7", ModelProvider.openai, []⟩, 0, 0, ModelProvider.openai⟩

def c7reg : Registry := [("s7", c7sd)]

def c9reg1 : Registry :=
  (createSession [] 0 (Except.ok ()) none (Except.ok []) ModelProvider.anthropic 5).2

def c9reg2 : Registry :=
  (createSession c9reg1 1 (Except.ok ()) none (Except.ok []) ModelProvider.anthropic 6).2

def c9entry : SessionData :=
  ⟨"no-session", ⟨1, none, ModelProvider.anthropic, []⟩, 6, 6, ModelProvider.anthropic⟩

def c10reg : Registry :=
  (createSession [] 0 (Except.ok ()) (some "s9") (Except.ok []) ModelProvider.openai 1).2

def c10chat : HttpResp × Registry × List Nat :=
  chatHandler c10reg (errOrc ⟨none, some 404⟩) (FetchOutcome.status 200)
    (some "hi") (some "s9") 2

/-- The session entry after a chat round: lastActivity touched by getSession
and the client history replaced by the mutated array. -/
def touchedWith (sd : SessionData) (now : Nat) (h2 : List Msg) : SessionData :=
  { sd with lastActivity := now, client := { sd.client with history := h2 } }

theorem mapGet_mapSet_self (reg : Registry) (k : String) (v : SessionData) :
    mapGet (mapSet reg k v) k = some v := by
  induction reg with
  | nil => simp [mapSet, mapGet]
  | cons hd tl ih =>
      obtain ⟨k1, v1⟩ := hd
      by_cases h : k1 = k
      · simp [mapSet, mapGet, h]
      · simp [mapSet, mapGet, h, ih]

theorem mapGet_mapDelete_self (reg : Registry) (k : String) :
    mapGet (mapDelete reg k) k = none := by
  induction reg with
  | nil => simp [mapDelete, mapGet]
  | cons hd tl ih =>
      obtain ⟨k1, v1⟩ := hd
      by_cases h : k1 = k
      · simp [mapDelete, h, ih]
      · simp [mapDelete, mapGet, h, ih]

theorem mapSet_mapSet (reg : Registry) (k : String) (v w : SessionData) :
    mapSet (mapSet reg k v) k w = mapSet reg k w := by
  induction reg with
  | nil => simp [mapSet]
  | cons hd tl ih =>
      obtain ⟨k1, v1⟩ := hd
      by_cases h : k1 = k
      · simp [mapSet, h]
      · simp [mapSet, h, ih]

theorem terminateSession_closeCalls (m : Option String) (ht : Bool) (f : FetchOutcome) :
    (terminateSession m ht f).closeCalls = 1 := by
  unfold terminateSession
  split <;> rfl

theorem removeSession_found (reg : Registry) (sid : String) (sd : SessionData)
    (f : FetchOutcome) (h : mapGet reg sid = some sd) :
    removeSession reg sid f = (mapDelete reg sid, [sd.client.clientId]) := by
  unfold removeSession
  rw [h]
  simp [terminateSession_closeCalls]

theorem processQuery_initialThrow (orc : Oracles) (p : ModelProvider) (hist : List Msg)
    (q : String) (e : Err) (h : initialCallThrows orc p (hist ++ [Msg.user q]) e) :
    processQuery orc p hist q = ⟨Except.error e, hist ++ [Msg.user q], [Event.modelCall]⟩ := by
  cases p with
  | anthropic =>
      simp only [initialCallThrows] at h
      simp [processQuery, processQueryWithAnthropic, h]
  | openai =>
      simp only [initialCallThrows] at h
      simp [processQuery, processQueryWithOpenAI, h]
  | ollama =>
      simp only [initialCallThrows] at h
      simp [processQuery, processQueryWithOllama, h]

theorem chatHandler_found (reg : Registry) (orc : Oracles) (f : FetchOutcome)
    (q sid : String) (now : Nat) (sd : SessionData)
    (hq : q ≠ "") (hsid : sid ≠ "") (hget : mapGet reg sid = some sd) :
    chatHandler reg orc f (some q) (some sid) now =
      (match (processQuery orc sd.client.provider sd.client.history q).result with
       | Except.ok txt =>
           (⟨200, none, none, some txt,
             some (processQuery orc sd.client.provider sd.client.history q).history.length⟩,
            mapSet reg sid
              (touchedWith sd now (processQuery orc sd.client.provider sd.client.history q).history),
            [])
       | Except.error e =>
           if is404 e then
             ((⟨404, some "Session terminated by server. Please connect again.",
               some true, none, none⟩),
               (removeSession (mapSet reg sid
                 (touchedWith sd now
                   (processQuery orc sd.client.provider sd.client.history q).history)) sid f).1,
               (removeSession (mapSet reg sid
                 (touchedWith sd now
                   (processQuery orc sd.client.provider sd.client.history q).history)) sid f).2)
           else
             (⟨500, some "Failed to process query", none, none, none⟩,
              mapSet reg sid
                (touchedWith sd now
                  (processQuery orc sd.client.provider sd.client.history q).history),
              [])) := by
  unfold chatHandler
  rw [if_neg (by simp [strTruthy, hq]), if_neg (by simp [strTruthy, hsid])]
  simp only [Option.getD_some, getSession, hget]
  simp only [mapSet_mapSet, touchedWith]

theorem chatHandler_miss (reg : Registry) (orc : Oracles) (f : FetchOutcome)
    (q sid : String) (now : Nat)
    (hq : q ≠ "") (hsid : sid ≠ "") (hget : mapGet reg sid = none) :
    chatHandler reg orc f (some q) (some sid) now =
      (⟨404, some "Session not found or expired. Please connect again using /connect endpoint",
        none, none, none⟩, reg, []) := by
  unfold chatHandler
  rw [if_neg (by simp [strTruthy, hq]), if_neg (by simp [strTruthy, hsid])]
  simp only [Option.getD_some, getSession, hget]

theorem anthropicLoop_noTools (orc : Oracles) (bs : List ContentBlock) :
    countToolUses bs = 0 →
    ∀ hist acc evs, ∃ r, anthropicLoop orc bs hist acc evs = ⟨Except.ok r, hist, evs⟩ := by
  induction bs with
  | nil => intro _ hist acc evs; exact ⟨acc, rfl⟩
  | cons b rest ih =>
      cases b with
      | text s =>
          intro h hist acc evs
          simp only [countToolUses] at h
          simpa [anthropicLoop] using ih h hist (acc ++ s) evs
      | toolUse tid n a =>
          intro h
          simp [countToolUses] at h

theorem anthropicLoop_textPrefix (orc : Oracles) (pre : List ContentBlock) :
    countToolUses pre = 0 →
    ∀ bs hist acc evs, ∃ acc2,
      anthropicLoop orc (pre ++ bs) hist acc evs = anthropicLoop orc bs hist acc2 evs := by
  induction pre with
  | nil => intro _ bs hist acc evs; exact ⟨acc, rfl⟩
  | cons b rest ih =>
      cases b with
      | text s =>
          intro h bs hist acc evs
          simp only [countToolUses] at h
          simpa [anthropicLoop] using ih h bs hist (acc ++ s) evs
      | toolUse tid n a =>
          intro h
          simp [countToolUses] at h

theorem openaiToolLoop_ok (orc : Oracles) (res : OpenAIToolCall → String) :
    ∀ (tcs : List OpenAIToolCall) hist evs,
      (∀ tc ∈ tcs, orc.mcpCallTool tc.name tc.arguments = Except.ok (res tc)) →
      openaiToolLoop orc tcs hist evs =
        (none, hist ++ tcs.map (fun tc => Msg.toolMsgOpenAI (res tc) tc.id),
          evs ++ tcs.map (fun tc => Event.toolInvoke tc.name tc.arguments)) := by
  intro tcs
  induction tcs with
  | nil => intro hist evs _; simp [openaiToolLoop]
  | cons tc rest ih =>
      intro hist evs h
      have htc := h tc (by simp)
      have ihh := ih (hist ++ [Msg.toolMsgOpenAI (res tc) tc.id])
        (evs ++ [Event.toolInvoke tc.name tc.arguments])
        (fun tc2 hm => h tc2 (by simp [hm]))
      simp [openaiToolLoop, htc, ihh]

theorem ollamaToolLoop_ok (orc : Oracles) (res : OllamaToolCall → String) :
    ∀ (tcs : List OllamaToolCall) hist evs,
      (∀ tc ∈ tcs, orc.mcpCallTool tc.name tc.arguments = Except.ok (res tc)) →
      ollamaToolLoop orc tcs hist evs =
        (none, hist ++ tcs.map (fun tc => Msg.toolMsgOllama (res tc) (ollamaCorrId tc)),
          evs ++ tcs.map (fun tc => Event.toolInvoke tc.name tc.arguments)) := by
  intro tcs
  induction tcs with
  | nil => intro hist evs _; simp [ollamaToolLoop]
  | cons tc rest ih =>
      intro hist evs h
      have htc := h tc (by simp)
      have ihh := ih (hist ++ [Msg.toolMsgOllama (res tc) (ollamaCorrId tc)])
        (evs ++ [Event.toolInvoke tc.name tc.arguments])
        (fun tc2 hm => h tc2 (by simp [hm]))
      simp [ollamaToolLoop, htc, ihh]

theorem anthropicLoop_events (orc : Oracles)
    (hm : ∀ h, ∃ bs, orc.anthropicCall h = Except.ok bs)
    (hc : ∀ n a, ∃ r, orc.mcpCallTool n a = Except.ok r) :
    ∀ bs hist acc evs,
      (anthropicLoop orc bs hist acc evs).events = evs ++ followupEvents bs := by
  intro bs
  induction bs with
  | nil => intro hist acc evs; simp [anthropicLoop, followupEvents]
  | cons b rest ih =>
      cases b with
      | text s =>
          intro hist acc evs
          simpa [anthropicLoop, followupEvents] using ih hist (acc ++ s) evs
      | toolUse tid n a =>
          intro hist acc evs
          obtain ⟨r, hr⟩ := hc n a
          obtain ⟨fbs, hf⟩ := hm (hist ++ [Msg.toolResultBlock tid r])
          have ihh := ih (hist ++ [Msg.toolResultBlock tid r] ++ [Msg.assistantBlocks fbs])
            (acc ++ textOfBlocks fbs) (evs ++ [Event.toolInvoke n a, Event.modelCall])
          simp only [List.append_assoc, List.cons_append, List.nil_append] at ihh
          simp [anthropicLoop, hr, hf, ihh, followupEvents]

theorem countModelCalls_followupEvents (bs : List ContentBlock) :
    countModelCalls (followupEvents bs) = countToolUses bs := by
  induction bs with
  | nil => rfl
  | cons b rest ih =>
      cases b with
      | text s => simpa [followupEvents, countToolUses] using ih
      | toolUse tid n a =>
          simp [followupEvents, countToolUses, countModelCalls, isModelCall,
            List.filter] at ih ⊢
          omega

theorem wfFrom_append (a : List Msg) :
    ∀ (seen b : List Msg),
      WFFrom seen (a ++ b) ↔ (WFFrom seen a ∧ WFFrom (seen ++ a) b) := by
  induction a with
  | nil => intro seen b; simp [WFFrom]
  | cons m rest ih =>
      intro seen b
      simp only [List.cons_append, WFFrom, List.append_eq]
      rw [ih (seen ++ [m]) b]
      constructor
      · rintro ⟨h1, h2, h3⟩
        exact ⟨⟨h1, h2⟩, by simpa [List.append_assoc] using h3⟩
      · rintro ⟨⟨h1, h2⟩, h3⟩
        exact ⟨h1, h2, by simpa [List.append_assoc] using h3⟩

theorem wfFrom_mono : ∀ (l seen seen2 : List Msg),
    (∀ m, m ∈ seen → m ∈ seen2) → WFFrom seen l → WFFrom seen2 l := by
  intro l
  induction l with
  | nil => intro seen seen2 _ _; trivial
  | cons m rest ih =>
      intro seen seen2 hsub h
      obtain ⟨h1, h2⟩ := h
      refine ⟨?_, ih (seen ++ [m]) (seen2 ++ [m]) ?_ h2⟩
      · intro cid hcid
        obtain ⟨m2, hm2, hreq⟩ := h1 cid hcid
        exact ⟨m2, hsub m2 hm2, hreq⟩
      · intro x hx
        rcases List.mem_append.mp hx with hx2 | hx2
        · exact List.mem_append.mpr (Or.inl (hsub x hx2))
        · exact List.mem_append.mpr (Or.inr hx2)

theorem wfHistory_snoc (hist : List Msg) (m : Msg) (h : WFHistory hist)
    (hm : resultOkFrom hist m) : WFHistory (hist ++ [m]) := by
  unfold WFHistory at h ⊢
  rw [wfFrom_append]
  exact ⟨h, ⟨by simpa using hm, trivial⟩⟩

theorem resultOkFrom_noResult (seen : List Msg) (m : Msg)
    (h : toolResultId m = none) : resultOkFrom seen m := by
  intro cid hcid
  rw [h] at hcid
  cases hcid

theorem anthropicLoop_wfHistory (orc : Oracles) :
    ∀ (bs : List ContentBlock) hist acc evs, WFHistory hist →
      (∀ tid n a, ContentBlock.toolUse tid n a ∈ bs →
        ∃ m, m ∈ hist ∧ hasRequestId tid m = true) →
      WFHistory (anthropicLoop orc bs hist acc evs).history ∧
      ∃ tail, (anthropicLoop orc bs hist acc evs).history = hist ++ tail := by
  intro bs
  induction bs with
  | nil =>
      intro hist acc evs hwf _
      exact ⟨hwf, ⟨[], by simp [anthropicLoop]⟩⟩
  | cons b rest ih =>
      cases b with
      | text s =>
          intro hist acc evs hwf hmem
          simpa [anthropicLoop] using
            ih hist (acc ++ s) evs hwf (fun tid n a hm => hmem tid n a (by simp [hm]))
      | toolUse tid n a =>
          intro hist acc evs hwf hmem
          cases hmc : orc.mcpCallTool n a with
          | error e =>
              refine ⟨?_, ⟨[], ?_⟩⟩ <;> simp [anthropicLoop, hmc, hwf]
          | ok r =>
              have hwf1 : WFHistory (hist ++ [Msg.toolResultBlock tid r]) := by
                refine wfHistory_snoc hist _ hwf ?_
                intro cid hcid
                simp only [toolResultId, Option.some_inj] at hcid
                subst hcid
                exact hmem tid n a (by simp)
              cases hmf : orc.anthropicCall (hist ++ [Msg.toolResultBlock tid r]) with
              | error e =>
                  refine ⟨?_, ⟨[Msg.toolResultBlock tid r], ?_⟩⟩ <;>
                    simp [anthropicLoop, hmc, hmf, hwf1]
              | ok fbs =>
                  have hwf2 : WFHistory
                      ((hist ++ [Msg.toolResultBlock tid r]) ++ [Msg.assistantBlocks fbs]) :=
                    wfHistory_snoc _ _ hwf1 (resultOkFrom_noResult _ _ rfl)
                  have hmem2 : ∀ tid2 n2 a2, ContentBlock.toolUse tid2 n2 a2 ∈ rest →
                      ∃ m, m ∈ (hist ++ [Msg.toolResultBlock tid r]) ++ [Msg.assistantBlocks fbs] ∧
                        hasRequestId tid2 m = true := by
                    intro tid2 n2 a2 hm
                    obtain ⟨m, hm1, hm2⟩ := hmem tid2 n2 a2 (by simp [hm])
                    exact ⟨m, by simp [hm1], hm2⟩
                  obtain ⟨hwf3, tail, htail⟩ :=
                    ih ((hist ++ [Msg.toolResultBlock tid r]) ++ [Msg.assistantBlocks fbs])
                      (acc ++ textOfBlocks fbs) (evs ++ [Event.toolInvoke n a, Event.modelCall])
                      hwf2 hmem2
                  refine ⟨?_, ⟨[Msg.toolResultBlock tid r, Msg.assistantBlocks fbs] ++ tail, ?_⟩⟩
                  · simpa [anthropicLoop, hmc, hmf] using hwf3
                  · simp only [anthropicLoop, hmc, hmf]
                    rw [htail]
                    simp

theorem openaiToolLoop_wfHistory (orc : Oracles) :
    ∀ (tcs : List OpenAIToolCall) hist evs, WFHistory hist →
      (∀ tc ∈ tcs, ∃ m, m ∈ hist ∧ hasRequestId tc.id m = true) →
      WFHistory (openaiToolLoop orc tcs hist evs).2.1 ∧
      ∃ tail, (openaiToolLoop orc tcs hist evs).2.1 = hist ++ tail := by
  intro tcs
  induction tcs with
  | nil =>
      intro hist evs hwf _
      exact ⟨hwf, ⟨[], by simp [openaiToolLoop]⟩⟩
  | cons tc rest ih =>
      intro hist evs hwf hmem
      cases hmc : orc.mcpCallTool tc.name tc.arguments with
      | error e =>
          refine ⟨?_, ⟨[], ?_⟩⟩ <;> simp [openaiToolLoop, hmc, hwf]
      | ok r =>
          have hwf1 : WFHistory (hist ++ [Msg.toolMsgOpenAI r tc.id]) := by
            refine wfHistory_snoc hist _ hwf ?_
            intro cid hcid
            simp only [toolResultId, Option.some_inj] at hcid
            subst hcid
            exact hmem tc (by simp)
          have hmem2 : ∀ tc2 ∈ rest, ∃ m, m ∈ hist ++ [Msg.toolMsgOpenAI r tc.id] ∧
              hasRequestId tc2.id m = true := by
            intro tc2 hm
            obtain ⟨m, hm1, hm2⟩ := hmem tc2 (by simp [hm])
            exact ⟨m, by simp [hm1], hm2⟩
          obtain ⟨hwf2, tail, htail⟩ :=
            ih (hist ++ [Msg.toolMsgOpenAI r tc.id])
              (evs ++ [Event.toolInvoke tc.name tc.arguments]) hwf1 hmem2
          refine ⟨?_, ⟨Msg.toolMsgOpenAI r tc.id :: tail, ?_⟩⟩
          · simpa [openaiToolLoop, hmc] using hwf2
          · simp only [openaiToolLoop, hmc]
            rw [htail]
            simp

theorem ollamaToolLoop_wfHistory (orc : Oracles) :
    ∀ (tcs : List OllamaToolCall) hist evs, WFHistory hist →
      (∀ tc ∈ tcs, ∃ m, m ∈ hist ∧ hasRequestId (ollamaCorrId tc) m = true) →
      WFHistory (ollamaToolLoop orc tcs hist evs).2.1 ∧
      ∃ tail, (ollamaToolLoop orc tcs hist evs).2.1 = hist ++ tail := by
  intro tcs
  induction tcs with
  | nil =>
      intro hist evs hwf _
      exact ⟨hwf, ⟨[], by simp [ollamaToolLoop]⟩⟩
  | cons tc rest ih =>
      intro hist evs hwf hmem
      cases hmc : orc.mcpCallTool tc.name tc.arguments with
      | error e =>
          refine ⟨?_, ⟨[], ?_⟩⟩ <;> simp [ollamaToolLoop, hmc, hwf]
      | ok r =>
          have hwf1 : WFHistory (hist ++ [Msg.toolMsgOllama r (ollamaCorrId tc)]) := by
            refine wfHistory_snoc hist _ hwf ?_
            intro cid hcid
            simp only [toolResultId, Option.some_inj] at hcid
            subst hcid
            exact hmem tc (by simp)
          have hmem2 : ∀ tc2 ∈ rest, ∃ m, m ∈ hist ++ [Msg.toolMsgOllama r (ollamaCorrId tc)] ∧
              hasRequestId (ollamaCorrId tc2) m = true := by
            intro tc2 hm
            obtain ⟨m, hm1, hm2⟩ := hmem tc2 (by simp [hm])
            exact ⟨m, by simp [hm1], hm2⟩
          obtain ⟨hwf2, tail, htail⟩ :=
            ih (hist ++ [Msg.toolMsgOllama r (ollamaCorrId tc)])
              (evs ++ [Event.toolInvoke tc.name tc.arguments]) hwf1 hmem2
          refine ⟨?_, ⟨Msg.toolMsgOllama r (ollamaCorrId tc) :: tail, ?_⟩⟩
          · simpa [ollamaToolLoop, hmc] using hwf2
          · simp only [ollamaToolLoop, hmc]
            rw [htail]
            simp

theorem processQuery_wfHistory (orc : Oracles) (p : ModelProvider) (hist : List Msg)
    (q : String) (h : WFHistory hist) :
    WFHistory (processQuery orc p hist q).history ∧
    ∃ tail, (processQuery orc p hist q).history = hist ++ tail := by
  have huser : WFHistory (hist ++ [Msg.user q]) :=
    wfHistory_snoc _ _ h (resultOkFrom_noResult _ _ rfl)
  cases p with
  | anthropic =>
      cases hm : orc.anthropicCall (hist ++ [Msg.user q]) with
      | error e =>
          refine ⟨?_, ⟨[Msg.user q], ?_⟩⟩ <;>
            simp [processQuery, processQueryWithAnthropic, hm, huser]
      | ok blocks =>
          have hwf1 : WFHistory ((hist ++ [Msg.user q]) ++ [Msg.assistantBlocks blocks]) :=
            wfHistory_snoc _ _ huser (resultOkFrom_noResult _ _ rfl)
          have hmem : ∀ tid n a, ContentBlock.toolUse tid n a ∈ blocks →
              ∃ m, m ∈ (hist ++ [Msg.user q]) ++ [Msg.assistantBlocks blocks] ∧
                hasRequestId tid m = true := by
            intro tid n a hmm
            refine ⟨Msg.assistantBlocks blocks, by simp, ?_⟩
            simp only [hasRequestId, List.any_eq_true]
            refine ⟨ContentBlock.toolUse tid n a, hmm, ?_⟩
            simp
          obtain ⟨hwf2, tail, htail⟩ :=
            anthropicLoop_wfHistory orc blocks
              ((hist ++ [Msg.user q]) ++ [Msg.assistantBlocks blocks]) "" [Event.modelCall]
              hwf1 hmem
          refine ⟨?_, ⟨[Msg.user q, Msg.assistantBlocks blocks] ++ tail, ?_⟩⟩
          · simpa [processQuery, processQueryWithAnthropic, hm] using hwf2
          · simp only [processQuery, processQueryWithAnthropic, hm]
            rw [htail]
            simp
  | openai =>
      cases hm : orc.openaiCall (hist ++ [Msg.user q]) with
      | error e =>
          refine ⟨?_, ⟨[Msg.user q], ?_⟩⟩ <;>
            simp [processQuery, processQueryWithOpenAI, hm, huser]
      | ok msg =>
          have hwf1 : WFHistory
              ((hist ++ [Msg.user q]) ++ [Msg.assistantOpenAI msg.content msg.toolCalls]) :=
            wfHistory_snoc _ _ huser (resultOkFrom_noResult _ _ rfl)
          cases htc : msg.toolCalls with
          | none =>
              rw [htc] at hwf1
              refine ⟨?_, ⟨[Msg.user q, Msg.assistantOpenAI msg.content none], ?_⟩⟩
              · simpa [processQuery, processQueryWithOpenAI, hm, htc] using hwf1
              · simp [processQuery, processQueryWithOpenAI, hm, htc]
          | some tcs =>
              cases tcs with
              | nil =>
                  rw [htc] at hwf1
                  refine ⟨?_, ⟨[Msg.user q, Msg.assistantOpenAI msg.content (some [])], ?_⟩⟩
                  · simpa [processQuery, processQueryWithOpenAI, hm, htc] using hwf1
                  · simp [processQuery, processQueryWithOpenAI, hm, htc]
              | cons tc rest =>
                  rw [htc] at hwf1
                  have hmem : ∀ tc2 ∈ tc :: rest,
                      ∃ m, m ∈ (hist ++ [Msg.user q]) ++
                          [Msg.assistantOpenAI msg.content (some (tc :: rest))] ∧
                        hasRequestId tc2.id m = true := by
                    intro tc2 hmm
                    refine ⟨Msg.assistantOpenAI msg.content (some (tc :: rest)), by simp, ?_⟩
                    simp only [hasRequestId, List.any_eq_true]
                    exact ⟨tc2, hmm, by simp⟩
                  obtain ⟨hwf2, tail, htail⟩ :=
                    openaiToolLoop_wfHistory orc (tc :: rest)
                      ((hist ++ [Msg.user q]) ++ [Msg.assistantOpenAI msg.content (some (tc :: rest))])
                      [Event.modelCall] hwf1 hmem
                  rcases hloop : openaiToolLoop orc (tc :: rest)
                      ((hist ++ [Msg.user q]) ++ [Msg.assistantOpenAI msg.content (some (tc :: rest))])
                      [Event.modelCall] with ⟨oerr, hist2, evs2⟩
                  rw [hloop] at hwf2 htail
                  simp only at hwf2 htail
                  simp only [List.append_assoc, List.cons_append, List.nil_append] at hloop
                  cases oerr with
                  | some e =>
                      refine ⟨?_, ⟨[Msg.user q, Msg.assistantOpenAI msg.content (some (tc :: rest))] ++ tail, ?_⟩⟩
                      · simpa [processQuery, processQueryWithOpenAI, hm, htc, hloop] using hwf2
                      · simp only [processQuery, processQueryWithOpenAI, hm, htc, List.append_assoc, List.cons_append, List.nil_append, hloop]
                        rw [htail]
                        simp
                  | none =>
                      cases hmf : orc.openaiCall hist2 with
                      | error e2 =>
                          refine ⟨?_, ⟨[Msg.user q, Msg.assistantOpenAI msg.content (some (tc :: rest))] ++ tail, ?_⟩⟩
                          · simpa [processQuery, processQueryWithOpenAI, hm, htc, hloop, hmf] using hwf2
                          · simp only [processQuery, processQueryWithOpenAI, hm, htc, List.append_assoc, List.cons_append, List.nil_append, hloop, hmf]
                            rw [htail]
                            simp
                      | ok fmsg =>
                          have hwf3 : WFHistory
                              (hist2 ++ [Msg.assistantOpenAI fmsg.content fmsg.toolCalls]) :=
                            wfHistory_snoc _ _ hwf2 (resultOkFrom_noResult _ _ rfl)
                          refine ⟨?_,
                            ⟨[Msg.user q, Msg.assistantOpenAI msg.content (some (tc :: rest))] ++ tail ++
                              [Msg.assistantOpenAI fmsg.content fmsg.toolCalls], ?_⟩⟩
                          · simpa [processQuery, processQueryWithOpenAI, hm, htc, hloop, hmf] using hwf3
                          · simp only [processQuery, processQueryWithOpenAI, hm, htc, List.append_assoc, List.cons_append, List.nil_append, hloop, hmf]
                            rw [htail]
                            simp
  | ollama =>
      cases hm : orc.ollamaCall (hist ++ [Msg.user q]) with
      | error e =>
          refine ⟨?_, ⟨[Msg.user q], ?_⟩⟩ <;>
            simp [processQuery, processQueryWithOllama, hm, huser]
      | ok msg =>
          have hwf1 : WFHistory
              ((hist ++ [Msg.user q]) ++ [Msg.assistantOllama msg.content msg.toolCalls]) :=
            wfHistory_snoc _ _ huser (resultOkFrom_noResult _ _ rfl)
          cases htc : msg.toolCalls with
          | none =>
              rw [htc] at hwf1
              refine ⟨?_, ⟨[Msg.user q, Msg.assistantOllama msg.content none], ?_⟩⟩
              · simpa [processQuery, processQueryWithOllama, hm, htc] using hwf1
              · simp [processQuery, processQueryWithOllama, hm, htc]
          | some tcs =>
              cases tcs with
              | nil =>
                  rw [htc] at hwf1
                  refine ⟨?_, ⟨[Msg.user q, Msg.assistantOllama msg.content (some [])], ?_⟩⟩
                  · simpa [processQuery, processQueryWithOllama, hm, htc] using hwf1
                  · simp [processQuery, processQueryWithOllama, hm, htc]
              | cons tc rest =>
                  rw [htc] at hwf1
                  have hmem : ∀ tc2 ∈ tc :: rest,
                      ∃ m, m ∈ (hist ++ [Msg.user q]) ++
                          [Msg.assistantOllama msg.content (some (tc :: rest))] ∧
                        hasRequestId (ollamaCorrId tc2) m = true := by
                    intro tc2 hmm
                    refine ⟨Msg.assistantOllama msg.content (some (tc :: rest)), by simp, ?_⟩
                    simp only [hasRequestId, List.any_eq_true]
                    exact ⟨tc2, hmm, by simp⟩
                  obtain ⟨hwf2, tail, htail⟩ :=
                    ollamaToolLoop_wfHistory orc (tc :: rest)
                      ((hist ++ [Msg.user q]) ++ [Msg.assistantOllama msg.content (some (tc :: rest))])
                      [Event.modelCall] hwf1 hmem
                  rcases hloop : ollamaToolLoop orc (tc :: rest)
                      ((hist ++ [Msg.user q]) ++ [Msg.assistantOllama msg.content (some (tc :: rest))])
                      [Event.modelCall] with ⟨oerr, hist2, evs2⟩
                  rw [hloop] at hwf2 htail
                  simp only at hwf2 htail
                  simp only [List.append_assoc, List.cons_append, List.nil_append] at hloop
                  cases oerr with
                  | some e =>
                      refine ⟨?_, ⟨[Msg.user q, Msg.assistantOllama msg.content (some (tc :: rest))] ++ tail, ?_⟩⟩
                      · simpa [processQuery, processQueryWithOllama, hm, htc, hloop] using hwf2
                      · simp only [processQuery, processQueryWithOllama, hm, htc, List.append_assoc, List.cons_append, List.nil_append, hloop]
                        rw [htail]
                        simp
                  | none =>
                      cases hmf : orc.ollamaCall hist2 with
                      | error e2 =>
                          refine ⟨?_, ⟨[Msg.user q, Msg.assistantOllama msg.content (some (tc :: rest))] ++ tail, ?_⟩⟩
                          · simpa [processQuery, processQueryWithOllama, hm, htc, hloop, hmf] using hwf2
                          · simp only [processQuery, processQueryWithOllama, hm, htc, List.append_assoc, List.cons_append, List.nil_append, hloop, hmf]
                            rw [htail]
                            simp
                      | ok fmsg =>
                          have hwf3 : WFHistory
                              (hist2 ++ [Msg.assistantOllama fmsg.content fmsg.toolCalls]) :=
                            wfHistory_snoc _ _ hwf2 (resultOkFrom_noResult _ _ rfl)
                          refine ⟨?_,
                            ⟨[Msg.user q, Msg.assistantOllama msg.content (some (tc :: rest))] ++ tail ++
                              [Msg.assistantOllama fmsg.content fmsg.toolCalls], ?_⟩⟩
                          · simpa [processQuery, processQueryWithOllama, hm, htc, hloop, hmf] using hwf3
                          · simp only [processQuery, processQueryWithOllama, hm, htc, List.append_assoc, List.cons_append, List.nil_append, hloop, hmf]
                            rw [htail]
                            simp

/-- C5: for every session and every sequence of chat rounds, the conversation
history is strictly append-only (the history before the rounds is a prefix of
the history after them, so no committed message is ever edited or removed)
and every ToolResult entry appended is preceded earlier in the sequence by an
assistant message carrying a tool request with the same correlation id. -/
theorem claimC5 (orc : Oracles) (rounds : List (ModelProvider × String)) (hist : List Msg)
    (h : WFHistory hist) :
    WFHistory (runQueries orc rounds hist) ∧
    ∃ tail, runQueries orc rounds hist = hist ++ tail := by
  induction rounds generalizing hist with
  | nil => exact ⟨h, ⟨[], by simp [runQueries]⟩⟩
  | cons pq rest ih =>
      obtain ⟨p, q⟩ := pq
      obtain ⟨h1, t1, ht1⟩ := processQuery_wfHistory orc p hist q h
      obtain ⟨h2, t2, ht2⟩ := ih (processQuery orc p hist q).history h1
      refine ⟨h2, ⟨t1 ++ t2, ?_⟩⟩
      show runQueries orc rest (processQuery orc p hist q).history = hist ++ (t1 ++ t2)
      rw [ht2, ht1, List.append_assoc]

theorem claimC5_witness :
    WFHistory (runQueries oneToolOrc [(ModelProvider.openai, "find cats")] []) ∧
    ∃ tail, runQueries oneToolOrc [(ModelProvider.openai, "find cats")] [] = [] ++ tail :=
  claimC5 oneToolOrc [(ModelProvider.openai, "find cats")] [] (by trivial)

/-- C6: a failed MCP handshake or a failed tool discovery propagates out of
createSession unchanged, and the registry after the failed create equals the
registry before it - no session is registered. -/
theorem claimC6 (reg : Registry) (clientId : Nat) (hdr : Option String)
    (lt : Except Err (List McpTool)) (p : ModelProvider) (now : Nat) (e : Err) :
    createSession reg clientId (Except.error e) hdr lt p now = (Except.error e, reg) ∧
    createSession reg clientId (Except.ok ()) hdr (Except.error e) p now =
      (Except.error e, reg) := by
  constructor <;> simp [createSession, connectToServer]

/-- C7: terminateSession treats HTTP 405 as a tolerated, logged outcome,
catches thrown fetch errors and logs any other non-2xx status as a soft
failure, skips the DELETE request when no session id is held, and in every
one of these cases closes the transport exactly once; removeSession always
deletes the entry and releases exactly the removed client's connection. -/
theorem claimC7 :
    (∀ (m : Option String) (ht : Bool) (f : FetchOutcome),
      (terminateSession m ht f).closeCalls = 1) ∧
    (∀ (m : Option String) (ht : Bool) (f : FetchOutcome),
      (truthyOr m).isSome = false →
      terminateSession m ht f = ⟨TermLog.skipped, 1⟩) ∧
    (∀ (m : Option String), (truthyOr m).isSome = true →
      terminateSession m true (FetchOutcome.status 405) = ⟨TermLog.methodNotAllowed405, 1⟩ ∧
      (∀ e, terminateSession m true (FetchOutcome.threw e) = ⟨TermLog.caughtError, 1⟩) ∧
      (∀ n, n ≠ 405 → ¬(200 ≤ n ∧ n ≤ 299) →
        terminateSession m true (FetchOutcome.status n) = ⟨TermLog.softFailure n, 1⟩)) ∧
    (∀ (reg : Registry) (sid : String) (sd : SessionData) (f : FetchOutcome),
      mapGet reg sid = some sd →
      removeSession reg sid f = (mapDelete reg sid, [sd.client.clientId])) := by
  refine ⟨terminateSession_closeCalls, ?_, ?_, ?_⟩
  · intro m ht f hm
    simp [terminateSession, hm]
  · intro m hm
    refine ⟨?_, ?_, ?_⟩
    · simp [terminateSession, hm, terminationLog]
    · intro e
      simp [terminateSession, hm, terminationLog]
    · intro n h1 h2
      simp [terminateSession, hm, terminationLog, h1, h2]
  · intro reg sid sd f hget
    exact removeSession_found reg sid sd f hget

theorem claimC7_witness :
    terminateSession (some "s7") true (FetchOutcome.status 405) =
      ⟨TermLog.methodNotAllowed405, 1⟩ ∧
    removeSession c7reg "s7" (FetchOutcome.status 500) =
      (mapDelete c7reg "s7", [c7sd.client.clientId]) :=
  ⟨(claimC7.2.2.1 (some "s7") rfl).1,
    claimC7.2.2.2 c7reg "s7" c7sd (FetchOutcome.status 500) rfl⟩

/-- C8: disconnect with a session id that is not in the registry answers 404
Session not found and has no side effect: the registry (and with it every
session's history and lastActivity) is unchanged and no connection is
released. -/
theorem claimC8 (reg : Registry) (f : FetchOutcome) (sid : String) (now : Nat)
    (hsid : sid ≠ "") (h : mapGet reg sid = none) :
    disconnectHandler reg f (some sid) now =
      (⟨404, some "Session not found", none, none, none⟩, reg, []) := by
  unfold disconnectHandler
  rw [if_neg (by simp [strTruthy, hsid])]
  simp only [Option.getD_some, getSession, h]

theorem claimC8_witness :
    disconnectHandler [] (FetchOutcome.status 200) (some "zz") 0 =
      (⟨404, some "Session not found", none, none, none⟩, [], []) :=
  claimC8 [] (FetchOutcome.status 200) "zz" 0 (by decide) rfl

/-- C9: when the tool server omits the session header, every created session
is keyed "no-session"; after two such creates the registry holds exactly one
entry for that key, namely the second client (the first entry is overwritten
and unreachable), and no removal ever releases the first client's
connection (client 0): any removal releases nothing or only client 1. -/
theorem claimC9 :
    c9reg2.map Prod.fst = ["no-session"] ∧
    mapGet c9reg2 "no-session" = some c9entry ∧
    (∀ k, mapGet c9reg2 k = none ∨ mapGet c9reg2 k = some c9entry) ∧
    c9entry.client.clientId = 1 ∧
    (∀ sid f, (removeSession c9reg2 sid f).2 = [] ∨ (removeSession c9reg2 sid f).2 = [1]) := by
  have hreg : c9reg2 = [("no-session", c9entry)] := rfl
  refine ⟨rfl, rfl, ?_, rfl, ?_⟩
  · intro k
    rw [hreg]
    simp only [mapGet]
    by_cases hk : ("no-session" : String) = k
    · rw [if_pos hk]
      right
      rfl
    · rw [if_neg hk]
      left
      rfl
  · intro sid f
    unfold removeSession
    rw [hreg]
    simp only [mapGet]
    by_cases hk : ("no-session" : String) = sid
    · rw [if_pos hk]
      right
      simp [terminateSession, truthyOr, c9entry]
    · rw [if_neg hk]
      left
      rfl

theorem countModelCalls_append (a b : List Event) :
    countModelCalls (a ++ b) = countModelCalls a + countModelCalls b := by
  simp [countModelCalls, List.filter_append]

theorem runCreates_ids (p : ModelProvider) (now : Nat) :
    ∀ (inputs : List (Nat × Option String)) (reg : Registry),
      (runCreates p now inputs reg).1 = inputs.map (fun i => returnedId i.2) := by
  intro inputs
  induction inputs with
  | nil => intro reg; rfl
  | cons i rest ih =>
      intro reg
      obtain ⟨cid, hdr⟩ := i
      simp [runCreates, createSession, connectToServer, returnedId, ih]

/-- C3 (counterexample): in the first chat round against session s1 the model
requests the tool search and the tool invocation itself reports HTTP 404
(the round's outbound calls are exactly one model call followed by that tool
invocation, and the thrown error is the 404): the session is removed and the
caller gets requiresReconnect true, but the subsequent chat against s1
answers with the generic Session-not-found response, whose JSON carries no
requiresReconnect flag, contrary to the claim that it carries one. -/
theorem claimC3_counterexample :
    (processQuery c3orc ModelProvider.anthropic [] "hello").events =
      [Event.modelCall, Event.toolInvoke "search" "cats"] ∧
    (processQuery c3orc ModelProvider.anthropic [] "hello").result =
      Except.error ⟨some 404, none⟩ ∧
    c3chat1.1.requiresReconnect = some true ∧
    mapGet c3chat1.2.1 "s1" = none ∧
    c3chat2.1.statusCode = 404 ∧
    c3chat2.1.errorMsg =
      some "Session not found or expired. Please connect again using /connect endpoint" ∧
    c3chat2.1.requiresReconnect = none :=
  ⟨rfl, rfl, rfl, rfl, rfl, rfl, rfl⟩

/-- C3 (amended): an error carrying HTTP 404 thrown inside processQuery makes
the chat handler remove the session and answer 404 with requiresReconnect
true; every subsequent chat against that id takes the SessionNotFound branch,
answering 404 with the Session-not-found message and without any
requiresReconnect field. -/
theorem claimC3_amended :
    (∀ (reg : Registry) (orc : Oracles) (f : FetchOutcome) (q sid : String) (now : Nat)
        (sd : SessionData) (e : Err),
      q ≠ "" → sid ≠ "" → mapGet reg sid = some sd →
      (processQuery orc sd.client.provider sd.client.history q).result = Except.error e →
      is404 e = true →
      (chatHandler reg orc f (some q) (some sid) now).1 =
        ⟨404, some "Session terminated by server. Please connect again.",
          some true, none, none⟩ ∧
      mapGet (chatHandler reg orc f (some q) (some sid) now).2.1 sid = none) ∧
    (∀ (reg : Registry) (orc : Oracles) (f : FetchOutcome) (q sid : String) (now : Nat),
      q ≠ "" → sid ≠ "" → mapGet reg sid = none →
      chatHandler reg orc f (some q) (some sid) now =
        (⟨404, some "Session not found or expired. Please connect again using /connect endpoint",
          none, none, none⟩, reg, [])) := by
  constructor
  · intro reg orc f q sid now sd e hq hsid hget hres h404
    rw [chatHandler_found reg orc f q sid now sd hq hsid hget, hres]
    simp only [h404, if_true]
    refine ⟨by trivial, ?_⟩
    rw [removeSession_found _ sid _ f (mapGet_mapSet_self reg sid _)]
    exact mapGet_mapDelete_self _ sid
  · intro reg orc f q sid now hq hsid hget
    exact chatHandler_miss reg orc f q sid now hq hsid hget

theorem claimC3_amended_witness :
    ((chatHandler c3reg c3orc (FetchOutcome.status 200)
        (some "hello") (some "s1") 2).1 =
      ⟨404, some "Session terminated by server. Please connect again.",
        some true, none, none⟩ ∧
     mapGet (chatHandler c3reg c3orc (FetchOutcome.status 200)
        (some "hello") (some "s1") 2).2.1 "s1" = none) ∧
    chatHandler [] c3orc (FetchOutcome.status 200)
        (some "hello") (some "missing") 9 =
      (⟨404, some "Session not found or expired. Please connect again using /connect endpoint",
        none, none, none⟩, [], []) :=
  ⟨claimC3_amended.1 c3reg c3orc (FetchOutcome.status 200) "hello" "s1" 2
      c3sd ⟨some 404, none⟩ (by decide) (by decide) rfl rfl rfl,
    claimC3_amended.2 [] c3orc (FetchOutcome.status 200) "hello" "missing" 9
      (by decide) (by decide) rfl⟩

/-- C10 (counterexample): an OpenAI session whose initial provider call
throws an error carrying code 404: the round appends the UserText, but the
session does not survive - the handler removes it from the registry and
answers with the reconnect-required 404, refuting the claim that the session
survives every throw of the initial model call. -/
theorem claimC10_counterexample :
    (processQuery (errOrc ⟨none, some 404⟩) ModelProvider.openai [] "hi").result =
      Except.error ⟨none, some 404⟩ ∧
    (processQuery (errOrc ⟨none, some 404⟩) ModelProvider.openai [] "hi").history =
      [Msg.user "hi"] ∧
    c10chat.1.statusCode = 404 ∧
    c10chat.1.requiresReconnect = some true ∧
    mapGet c10chat.2.1 "s9" = none :=
  ⟨rfl, rfl, rfl, rfl, rfl⟩

/-- C10 (amended): if the initial model-provider call throws with an error
not carrying status or code 404, the session survives the round: the handler
answers 500, the registry still maps the id to the session, whose history is
the previous history extended by exactly the new UserText (so the reported
conversation length grows by one and every previously committed message is
unchanged), and no connection is released.  An initial-call error carrying
status or code 404 instead removes the session as though the tool server had
terminated it. -/
theorem claimC10_amended (reg : Registry) (orc : Oracles) (f : FetchOutcome)
    (q sid : String) (now : Nat) (sd : SessionData) (e : Err)
    (hq : q ≠ "") (hsid : sid ≠ "") (hget : mapGet reg sid = some sd)
    (hthrow : initialCallThrows orc sd.client.provider (sd.client.history ++ [Msg.user q]) e)
    (h404 : is404 e = false) :
    chatHandler reg orc f (some q) (some sid) now =
      (⟨500, some "Failed to process query", none, none, none⟩,
        mapSet reg sid (touchedWith sd now (sd.client.history ++ [Msg.user q])), []) ∧
    mapGet (chatHandler reg orc f (some q) (some sid) now).2.1 sid =
      some (touchedWith sd now (sd.client.history ++ [Msg.user q])) := by
  have hpq := processQuery_initialThrow orc sd.client.provider sd.client.history q e hthrow
  have h1 : chatHandler reg orc f (some q) (some sid) now =
      (⟨500, some "Failed to process query", none, none, none⟩,
        mapSet reg sid (touchedWith sd now (sd.client.history ++ [Msg.user q])), []) := by
    rw [chatHandler_found reg orc f q sid now sd hq hsid hget, hpq]
    simp [h404]
  refine ⟨h1, ?_⟩
  rw [h1]
  exact mapGet_mapSet_self reg sid _

theorem claimC10_amended_witness :
    chatHandler c7reg (errOrc ⟨some 500, none⟩) (FetchOutcome.status 200)
        (some "hi") (some "s7") 9 =
      (⟨500, some "Failed to process query", none, none, none⟩,
        mapSet c7reg "s7" (touchedWith c7sd 9 (c7sd.client.history ++ [Msg.user "hi"])), []) ∧
    mapGet (chatHandler c7reg (errOrc ⟨some 500, none⟩) (FetchOutcome.status 200)
        (some "hi") (some "s7") 9).2.1 "s7" =
      some (touchedWith c7sd 9 (c7sd.client.history ++ [Msg.user "hi"])) :=
  claimC10_amended c7reg (errOrc ⟨some 500, none⟩) (FetchOutcome.status 200) "hi" "s7" 9 c7sd
    ⟨some 500, none⟩ (by decide) (by decide) rfl rfl rfl

/-- C4: connect succeeds when the tool server omits the session header,
resolving to the sentinel "no-session" rather than an error; across any
sequence of creates whose server-assigned ids are nonempty and pairwise
distinct, the returned ids are pairwise distinct, and whenever the server
assigns no id every returned id is exactly the shared sentinel. -/
theorem claimC4 :
    (∀ (p : ModelProvider) (ts : List McpTool),
      connectToServer (Except.ok ()) none (Except.ok ts) p =
        Except.ok ("no-session", none, normalizeTools p ts)) ∧
    (∀ (p : ModelProvider) (now : Nat) (inputs : List (Nat × Option String)) (reg : Registry),
      (∀ i ∈ inputs, ∃ s, (i : Nat × Option String).2 = some s ∧ s ≠ "") →
      List.Pairwise (fun a b => a.2 ≠ b.2) inputs →
      List.Pairwise (fun a b => a ≠ b) (runCreates p now inputs reg).1) ∧
    (∀ (p : ModelProvider) (now : Nat) (inputs : List (Nat × Option String)) (reg : Registry),
      (∀ i ∈ inputs, (i : Nat × Option String).2 = none) →
      ∀ id2 ∈ (runCreates p now inputs reg).1, id2 = "no-session") := by
  refine ⟨?_, ?_, ?_⟩
  · intro p ts
    rfl
  · intro p now inputs reg hall hpw
    rw [runCreates_ids, List.pairwise_map]
    refine List.Pairwise.imp_of_mem ?_ hpw
    intro a b ha hb hne
    obtain ⟨sa, hsa, hsa2⟩ := hall a ha
    obtain ⟨sb, hsb, hsb2⟩ := hall b hb
    rw [hsa, hsb] at hne
    rw [hsa, hsb]
    simp only [returnedId, truthyOr, if_neg hsa2, if_neg hsb2, Option.getD_some]
    exact fun hcon => hne (by rw [hcon])
  · intro p now inputs reg hall id2 hid
    rw [runCreates_ids] at hid
    obtain ⟨i, hi, hieq⟩ := List.mem_map.mp hid
    rw [← hieq, hall i hi]
    rfl

theorem claimC4_witness :
    List.Pairwise (fun a b => a ≠ b)
      (runCreates ModelProvider.openai 0 [(0, some "a"), (1, some "b")] []).1 ∧
    connectToServer (Except.ok ()) none (Except.ok []) ModelProvider.openai =
      Except.ok ("no-session", none, normalizeTools ModelProvider.openai []) :=
  ⟨claimC4.2.1 ModelProvider.openai 0 [(0, some "a"), (1, some "b")] []
      (by
        intro i hi
        simp only [List.mem_cons, List.not_mem_nil, or_false] at hi
        rcases hi with rfl | rfl
        · exact ⟨"a", rfl, by decide⟩
        · exact ⟨"b", rfl, by decide⟩)
      (by decide),
    claimC4.1 ModelProvider.openai []⟩

/-- C2: a chat round whose initial model response contains exactly one tool
request, with the tool call and the follow-up model call succeeding, appends
exactly 4 messages to the conversation history (UserText, the assistant
aggregate carrying the tool request, the ToolResult, and the follow-up
assistant message) and issues exactly one follow-up model call - two model
calls in total. -/
theorem claimC2 (orc : Oracles) (p : ModelProvider) (hist : List Msg) (q : String)
    (h : OneToolRound orc p hist q) :
    (processQuery orc p hist q).history.length = hist.length + 4 ∧
    countModelCalls (processQuery orc p hist q).events = 2 := by
  cases p with
  | anthropic =>
      obtain ⟨pre, tid, tname, targ, post, tres, fblocks, h1, hpre, hpost, hmcp, hf⟩ := h
      simp only [processQuery, processQueryWithAnthropic, h1]
      obtain ⟨acc2, hacc⟩ := anthropicLoop_textPrefix orc pre hpre
        (ContentBlock.toolUse tid tname targ :: post)
        ((hist ++ [Msg.user q]) ++
          [Msg.assistantBlocks (pre ++ ContentBlock.toolUse tid tname targ :: post)])
        "" [Event.modelCall]
      rw [hacc]
      simp only [anthropicLoop, hmcp, hf]
      obtain ⟨r, hr⟩ := anthropicLoop_noTools orc post hpost
        ((((hist ++ [Msg.user q]) ++
          [Msg.assistantBlocks (pre ++ ContentBlock.toolUse tid tname targ :: post)]) ++
          [Msg.toolResultBlock tid tres]) ++ [Msg.assistantBlocks fblocks])
        (acc2 ++ textOfBlocks fblocks)
        ([Event.modelCall] ++ [Event.toolInvoke tname targ, Event.modelCall])
      rw [hr]
      constructor
      · simp only [List.length_append, List.length_cons, List.length_nil]
      · rfl
  | openai =>
      obtain ⟨c, tc, tres, fmsg, h1, hmcp, hf⟩ := h
      simp only [processQuery, processQueryWithOpenAI, h1]
      have hloop := openaiToolLoop_ok orc (fun _ => tres) [tc]
        ((hist ++ [Msg.user q]) ++ [Msg.assistantOpenAI c (some [tc])]) [Event.modelCall]
        (by
          intro tc2 h2
          simp only [List.mem_singleton] at h2
          subst h2
          exact hmcp)
      simp only [List.map_cons, List.map_nil] at hloop
      simp only [hloop, hf]
      constructor
      · simp only [List.length_append, List.length_cons, List.length_nil]
      · rfl
  | ollama =>
      obtain ⟨c, tc, tres, fmsg, h1, hmcp, hf⟩ := h
      simp only [processQuery, processQueryWithOllama, h1]
      have hloop := ollamaToolLoop_ok orc (fun _ => tres) [tc]
        ((hist ++ [Msg.user q]) ++ [Msg.assistantOllama c (some [tc])]) [Event.modelCall]
        (by
          intro tc2 h2
          simp only [List.mem_singleton] at h2
          subst h2
          exact hmcp)
      simp only [List.map_cons, List.map_nil] at hloop
      simp only [hloop, hf]
      constructor
      · simp only [List.length_append, List.length_cons, List.length_nil]
      · rfl

theorem claimC2_witness :
    (processQuery oneToolOrc ModelProvider.anthropic [] "find cats").history.length =
      ([] : List Msg).length + 4 ∧
    countModelCalls (processQuery oneToolOrc ModelProvider.anthropic [] "find cats").events = 2 :=
  claimC2 oneToolOrc ModelProvider.anthropic [] "find cats"
    ⟨[], "t1", "search", "cats", [], "3 results", [ContentBlock.text "done"],
      rfl, rfl, rfl, rfl, rfl⟩

/-- C1 (counterexample): an Anthropic chat round whose initial response
carries two tool requests makes three model calls in total (the initial one
plus one follow-up per tool request, interleaved with the invocations), not
the claimed single follow-up for the whole response. -/
theorem claimC1_counterexample :
    (processQuery c1orc ModelProvider.anthropic [] "q").events =
      [Event.modelCall, Event.toolInvoke "n1" "a1", Event.modelCall,
        Event.toolInvoke "n2" "a2", Event.modelCall] ∧
    countModelCalls (processQuery c1orc ModelProvider.anthropic [] "q").events = 3 ∧
    countModelCalls (processQuery c1orc ModelProvider.anthropic [] "q").events ≠ 2 := by
  refine ⟨rfl, rfl, ?_⟩
  decide

/-- C1 (amended): the MCP client is invoked once per tool request in request
order with a ToolResult appended for each; for the OpenAI and Ollama
providers exactly one follow-up model call is then issued for the whole
response, while for the Anthropic provider one follow-up model call is issued
immediately after each tool request, so a response with k tool requests
triggers k follow-up calls (1 + k model calls in total). -/
theorem claimC1_amended :
    (∀ (orc : Oracles) (hist : List Msg) (q : String) (c : Option String)
        (tc0 : OpenAIToolCall) (tcrest : List OpenAIToolCall)
        (res : OpenAIToolCall → String) (fmsg : OpenAIMessage),
      orc.openaiCall (hist ++ [Msg.user q]) = Except.ok ⟨c, some (tc0 :: tcrest)⟩ →
      (∀ tc ∈ tc0 :: tcrest, orc.mcpCallTool tc.name tc.arguments = Except.ok (res tc)) →
      orc.openaiCall (((hist ++ [Msg.user q]) ++ [Msg.assistantOpenAI c (some (tc0 :: tcrest))]) ++
        (tc0 :: tcrest).map (fun tc => Msg.toolMsgOpenAI (res tc) tc.id)) = Except.ok fmsg →
      processQueryWithOpenAI orc hist q =
        ⟨Except.ok (fmsg.content.getD ""),
          (((hist ++ [Msg.user q]) ++ [Msg.assistantOpenAI c (some (tc0 :: tcrest))]) ++
            (tc0 :: tcrest).map (fun tc => Msg.toolMsgOpenAI (res tc) tc.id)) ++
            [Msg.assistantOpenAI fmsg.content fmsg.toolCalls],
          ([Event.modelCall] ++
            (tc0 :: tcrest).map (fun tc => Event.toolInvoke tc.name tc.arguments)) ++
            [Event.modelCall]⟩) ∧
    (∀ (orc : Oracles) (hist : List Msg) (q : String) (c : Option String)
        (tc0 : OllamaToolCall) (tcrest : List OllamaToolCall)
        (res : OllamaToolCall → String) (fmsg : OllamaMessage),
      orc.ollamaCall (hist ++ [Msg.user q]) = Except.ok ⟨c, some (tc0 :: tcrest)⟩ →
      (∀ tc ∈ tc0 :: tcrest, orc.mcpCallTool tc.name tc.arguments = Except.ok (res tc)) →
      orc.ollamaCall (((hist ++ [Msg.user q]) ++ [Msg.assistantOllama c (some (tc0 :: tcrest))]) ++
        (tc0 :: tcrest).map (fun tc => Msg.toolMsgOllama (res tc) (ollamaCorrId tc))) =
          Except.ok fmsg →
      processQueryWithOllama orc hist q =
        ⟨Except.ok (fmsg.content.getD ""),
          (((hist ++ [Msg.user q]) ++ [Msg.assistantOllama c (some (tc0 :: tcrest))]) ++
            (tc0 :: tcrest).map (fun tc => Msg.toolMsgOllama (res tc) (ollamaCorrId tc))) ++
            [Msg.assistantOllama fmsg.content fmsg.toolCalls],
          ([Event.modelCall] ++
            (tc0 :: tcrest).map (fun tc => Event.toolInvoke tc.name tc.arguments)) ++
            [Event.modelCall]⟩) ∧
    (∀ (orc : Oracles) (hist : List Msg) (q : String) (blocks : List ContentBlock),
      (∀ h, ∃ bs, orc.anthropicCall h = Except.ok bs) →
      (∀ n a, ∃ r, orc.mcpCallTool n a = Except.ok r) →
      orc.anthropicCall (hist ++ [Msg.user q]) = Except.ok blocks →
      (processQueryWithAnthropic orc hist q).events =
        Event.modelCall :: followupEvents blocks ∧
      countModelCalls (processQueryWithAnthropic orc hist q).events =
        1 + countToolUses blocks) := by
  refine ⟨?_, ?_, ?_⟩
  · intro orc hist q c tc0 tcrest res fmsg h1 hmcp hf
    simp only [processQueryWithOpenAI, h1]
    have hloop := openaiToolLoop_ok orc res (tc0 :: tcrest)
      ((hist ++ [Msg.user q]) ++ [Msg.assistantOpenAI c (some (tc0 :: tcrest))])
      [Event.modelCall] hmcp
    simp only [hloop, hf]
  · intro orc hist q c tc0 tcrest res fmsg h1 hmcp hf
    simp only [processQueryWithOllama, h1]
    have hloop := ollamaToolLoop_ok orc res (tc0 :: tcrest)
      ((hist ++ [Msg.user q]) ++ [Msg.assistantOllama c (some (tc0 :: tcrest))])
      [Event.modelCall] hmcp
    simp only [hloop, hf]
  · intro orc hist q blocks hm hc h1
    have hev := anthropicLoop_events orc hm hc blocks
      ((hist ++ [Msg.user q]) ++ [Msg.assistantBlocks blocks]) "" [Event.modelCall]
    constructor
    · simp only [processQueryWithAnthropic, h1]
      rw [hev]
      rfl
    · simp only [processQueryWithAnthropic, h1]
      rw [hev, countModelCalls_append, countModelCalls_followupEvents]
      rfl

theorem claimC1_amended_witness :
    processQueryWithOpenAI oneToolOrc [] "find cats" =
      ⟨Except.ok "Found 3 results.",
        [Msg.user "find cats",
          Msg.assistantOpenAI (some "") (some [⟨"c1", "search", "cats"⟩]),
          Msg.toolMsgOpenAI "3 results" "c1",
          Msg.assistantOpenAI (some "Found 3 results.") none],
        [Event.modelCall, Event.toolInvoke "search" "cats", Event.modelCall]⟩ :=
  claimC1_amended.1 oneToolOrc [] "find cats" (some "") ⟨"c1", "search", "cats"⟩ []
    (fun _ => "3 results") ⟨some "Found 3 results.", none⟩ rfl
    (by
      intro tc h2
      simp only [List.mem_singleton] at h2
      subst h2
      rfl)
    rfl

end MCP
